import Mathlib

/-!
Shallow embedding of the asn1util library (Python) and verification of the
frozen claims about it.

Modelling conventions:
* a Python `bytes` value is a `List Nat` whose elements are below 256;
* Python exceptions are modelled by the `Asn1.PyError` type below; note that
  some `raise` statements in the source refer to names that do not exist in
  the module namespace (e.g. `InvalidTLV` in `tlv.py`) — executing them
  raises the builtin `NameError`, which gets its own constructor;
* unbounded `while` loops are modelled with an explicit fuel parameter; a
  `none`/`.error .fuelExhausted` result means the loop has not finished
  within the given fuel (the source loop simply runs longer, or forever).
-/

set_option maxRecDepth 20000

namespace Asn1

/-- Outcome of a Python exception. Constructors tagged `builtin` model
exceptions outside the library's own hierarchy (`ASN1Exception` and its
subclasses `InvalidEncoding`, `DERIncompatible`, `UnsupportedValue`). -/
inductive PyError where
  /-- `InvalidEncoding` from asn1util.exceptions. -/
  | invalidEncoding
  /-- `DERIncompatible` from asn1util.exceptions. -/
  | derIncompatible
  /-- `UnsupportedValue` from asn1util.exceptions. -/
  | unsupportedValue
  /-- builtin: `raise InvalidTLV(...)` in `tlv.py`, where the name
  `InvalidTLV` is not defined (it is neither in `asn1util/exceptions.py` nor
  imported), so the statement itself raises the builtin `NameError`. -/
  | nameErrorInvalidTLV
  /-- builtin: `ValueError`, e.g. from an `IntEnum` constructor call with a
  value that is not a member. -/
  | valueError
  /-- builtin: `TypeError` from `raise -0.0` in `real.py` (a float is not an
  exception, so the `raise` statement itself fails). -/
  | typeErrorRaiseFloat
  /-- builtin: `IndexError`, e.g. `list.pop()` on an empty list. -/
  | indexError
  /-- builtin: `NameError` from the `if __debug__:` diagnostics block of
  `decode_to_float` (real.py line 330), whose first statement reads the
  undefined name `b`; raised on every path that reaches the block when the
  interpreter runs with `__debug__` true (the default). -/
  | nameErrorUndefinedB
  /-- builtin: `AttributeError`, e.g. `Length.eval` where class `Length` of
  `tlv.py` defines no attribute `eval`. -/
  | attributeError
  /-- builtin: `AssertionError` from a failed `assert` statement. -/
  | assertionFailed
  /-- fuel exhaustion of the model (not a Python exception): the source
  `while` loop has not finished within the modelled number of iterations. -/
  | fuelExhausted
  deriving DecidableEq, Repr

/-! ## Byte-string helpers (asn1util/util.py and Python builtins) -/

/-- Python `int.from_bytes(l, byteorder='big', signed=False)`. -/
def natFromBytesBE (l : List Nat) : Nat :=
  l.foldl (fun acc b => acc * 256 + b) 0

/-- Python `v.to_bytes(k, byteorder='big', signed=False)` (big-endian, `k`
bytes). Python raises `OverflowError` when `v ≥ 256 ^ k`; every call site in
the embedded code chooses `k` large enough, so the model simply keeps the low
`k` bytes. -/
def natToBytesBE : Nat → Nat → List Nat
  | 0, _ => []
  | k + 1, v => natToBytesBE k (v / 256) ++ [v % 256]

/-- Python `n.bit_length()`, via an auxiliary with structural fuel. -/
def bitLenAux : Nat → Nat → Nat
  | 0, _ => 0
  | fuel + 1, n => if n = 0 then 0 else bitLenAux fuel (n / 2) + 1

/-- Python `n.bit_length()`: the number of bits needed to represent `n`
(`0` for `n = 0`). `n` itself is always enough fuel. -/
def bit_length (n : Nat) : Nat := bitLenAux n n

/-- `signed_int_to_bytes` from asn1util/util.py: minimal-length big-endian
two's-complement representation of an integer. For negative values Python's
`to_bytes(..., signed=True)` produces the bytes of `value + 256 ^ len`. -/
def signed_int_to_bytes (value : Int) : List Nat :=
  if value = 0 then [0]
  else if 0 < value then
    natToBytesBE (bit_length value.toNat / 8 + 1) value.toNat
  else
    let absBits := bit_length (-value).toNat
    let minByteLen :=
      if absBits % 8 = 0 ∧ (2 ^ (absBits - 1) : Int) + value = 0
      then absBits / 8 + 1 - 1 else absBits / 8 + 1
    natToBytesBE minByteLen (value + (2 ^ (8 * minByteLen) : Int)).toNat

/-- `unsigned_int_to_bytes` from asn1util/util.py: minimal-length big-endian
unsigned representation (empty for `0`, since `(0).bit_length() == 0`). -/
def unsigned_int_to_bytes (value : Nat) : List Nat :=
  natToBytesBE ((bit_length value + 7) / 8) value

/-! ## Tag (asn1util/tlv.py, class Tag) -/

/-- The state of a constructed Python `Tag` object: its raw octets and the
attributes `_clazz` (`leading & 0xC0`), `_pc` (`leading & 0x20`) and
`_number` set by `Tag.__init__`. -/
structure TagObj where
  octets : List Nat
  clazz : Nat
  pc : Nat
  number : Nat
  deriving DecidableEq, Repr

/-- The validation loop of `Tag.__init__` over the subsequent octets
(`for ind, octet in enumerate(octets[1:], 1)`): `ind` is the 1-based index,
`tagLen` the total octet count. The loop only checks; it never accumulates
the tag number. -/
def tagCheckLoop (tagLen : Nat) : Nat → List Nat → Except PyError Unit
  | _, [] => .ok ()
  | ind, octet :: rest =>
    if ind = 1 ∧ octet &&& 0x3f = 0 then .error .invalidEncoding
    else if ind = tagLen - 1 then
      if octet &&& 0x80 ≠ 0 then .error .invalidEncoding
      else tagCheckLoop tagLen (ind + 1) rest
    else if octet &&& 0x80 = 0 then .error .invalidEncoding
    else tagCheckLoop tagLen (ind + 1) rest

/-- `Tag.__init__(octets, strict)`. In the long form the source initialises
`self._number = 0` and the loop never updates it, so every long-form tag gets
number `0`. -/
def tagInit (octets : List Nat) (strict : Bool) : Except PyError TagObj :=
  match octets with
  | [] => .error .invalidEncoding
  | leading :: rest =>
    let tagLen := (leading :: rest).length
    if leading &&& 0x1f < 0x1f then
      .ok ⟨leading :: rest, leading &&& 0xC0, leading &&& 0x20, leading &&& 0x1f⟩
    else if tagLen = 1 then .error .invalidEncoding
    else
      match tagCheckLoop tagLen 1 rest with
      | .error e => .error e
      | .ok () =>
        if strict ∧ (0 : Nat) < 0x1f then .error .invalidEncoding
        else .ok ⟨leading :: rest, leading &&& 0xC0, leading &&& 0x20, 0⟩

/-- The loop of `Tag.build` collecting base-128 groups little-endian
(`while number > 0: res.append((number & 0x7f) | 0x80); number >>= 7`). -/
def tagBuildGroups : Nat → Nat → List Nat
  | 0, _ => []
  | fuel + 1, number =>
    if number = 0 then []
    else ((number &&& 0x7f) ||| 0x80) :: tagBuildGroups fuel (number >>> 7)

/-- `Tag.build(the_class, the_type, number)`: short form for `number < 31`,
otherwise base-128 long form; `res[0] &= 0x7f` clears the continuation bit of
the least significant group, then the leading byte is appended and the whole
buffer reversed. The result goes through `Tag.__init__` (strict false). -/
def tagBuild (theClass theType number : Nat) : Except PyError TagObj :=
  let tagInitial := theClass ||| theType
  if number < 0x1f then tagInit [tagInitial ||| number] false
  else
    match tagBuildGroups number number with
    | [] => .error .indexError
    | g :: gs =>
      tagInit ((((g &&& 0x7f) :: gs) ++ [tagInitial ||| 0x1f]).reverse) false

/-- The read loop of `Tag.decode` for the long form: keep reading continuation
octets into the buffer until one with a clear high bit arrives or the stream
ends. Returns the buffer and the remaining stream. -/
def tagReadLong : List Nat → List Nat → List Nat × List Nat
  | [], buffer => (buffer, [])
  | b :: rest, buffer =>
    if b &&& 0x80 = 0 then (buffer ++ [b], rest)
    else tagReadLong rest (buffer ++ [b])

/-- `Tag.decode(data)` on a byte string: returns the decoded tag (or `none`
at end of data) together with the unconsumed remainder of the stream. -/
def tagDecode (data : List Nat) : Except PyError (Option TagObj × List Nat) :=
  match data with
  | [] => .ok (none, [])
  | leading :: rest =>
    if leading &&& 0x1f ≠ 0x1f then
      match tagInit [leading] false with
      | .error e => .error e
      | .ok t => .ok (some t, rest)
    else
      match tagReadLong rest [leading] with
      | (buffer, rest') =>
        match tagInit buffer false with
        | .error e => .error e
        | .ok t => .ok (some t, rest')

/-- The condition under which `Tag.decode` raises (derived below): the data
begins a long-form tag (low five bits of the first byte all set) and either
the stream ends immediately, or the first continuation byte has its low SIX
bits clear (the source masks with `0x3f`), or no continuation byte has a
clear high bit before the stream ends. -/
def tagDecodeErrCond (data : List Nat) : Prop :=
  ∃ leading rest, data = leading :: rest ∧ leading &&& 0x1f = 0x1f ∧
    (rest = [] ∨ rest.headI &&& 0x3f = 0 ∨ ∀ b ∈ rest, b &&& 0x80 ≠ 0)

/-! ## Length (asn1util/tlv.py, class Length) -/

/-- The state of a constructed Python `Length` object: raw octets and
`_value` (`none` models Python `None`, the indefinite form). -/
structure LengthObj where
  octets : List Nat
  value : Option Nat
  deriving DecidableEq, Repr

/-- `Length.__init__(octets, der)`. -/
def lengthInit (octets : List Nat) (der : Bool) : Except PyError LengthObj :=
  match octets with
  | [] => .error .invalidEncoding
  | leading :: rest =>
    if leading = 0x80 then
      if der then .error .derIncompatible
      else .ok ⟨leading :: rest, none⟩
    else if leading &&& 0x80 = 0 then
      if (leading :: rest).length ≠ 1 then .error .invalidEncoding
      else .ok ⟨leading :: rest, some (leading &&& 0x7f)⟩
    else if leading = 0xff then .error .invalidEncoding
    else if (leading :: rest).length ≠ (leading &&& 0x7f) + 1 then
      .error .invalidEncoding
    else .ok ⟨leading :: rest, some (natFromBytesBE rest)⟩

/-- `Length.build(length_value)` for an integer argument (the `None` case is
`lengthBuildIndefinite` below). Note `length_value < 127` — not `< 128` — and
that the raise on more than 127 length octets refers to the undefined name
`InvalidTLV`. -/
def lengthBuild (lengthValue : Int) : Except PyError LengthObj :=
  if lengthValue < 0 then .error .valueError
  else if lengthValue < 127 then lengthInit [lengthValue.toNat] false
  else
    let numOctets := (bit_length lengthValue.toNat + 7) / 8
    if 127 < numOctets then .error .nameErrorInvalidTLV
    else lengthInit ((numOctets ||| 0x80) :: natToBytesBE numOctets lengthValue.toNat) false

/-- `Length.build(None)`: the indefinite marker. -/
def lengthBuildIndefinite : Except PyError LengthObj :=
  lengthInit [0x80] false

/-- `Length.decode(data, der)` on a byte string: the decoded length (or
`none` at end of data) and the unconsumed remainder. The indefinite and
short forms pass `der=False` to the constructor (source lines 317/319 call
`Length(leading)` without forwarding `der`). -/
def lengthDecode (data : List Nat) (der : Bool) : Except PyError (Option LengthObj × List Nat) :=
  match data with
  | [] => .ok (none, [])
  | leading :: rest =>
    if leading = 0x80 then
      match lengthInit [leading] false with
      | .error e => .error e
      | .ok l => .ok (some l, rest)
    else if leading &&& 0x80 = 0 then
      match lengthInit [leading] false with
      | .error e => .error e
      | .ok l => .ok (some l, rest)
    else
      let subsequentLen := leading &&& 0x7f
      if rest.length < subsequentLen then .error .nameErrorInvalidTLV
      else
        match lengthInit (leading :: rest.take subsequentLen) der with
        | .error e => .error e
        | .ok l => .ok (some l, rest.drop subsequentLen)

/-! ## REAL codec (asn1util/real.py) -/

/-- Result of a sign/mantissa/exponent decomposition: either an `(S, N, E)`
triple or a `SpecialRealValue` member (its byte code `0x40`–`0x43`). -/
inductive SneResult where
  | sne (s : Int) (n : Nat) (e : Int)
  | special (code : Nat)
  deriving DecidableEq, Repr

/-- The mantissa normalisation loop `while n & 0x01 == 0: n >>= 1; e += 1`
shared by `int_to_base2_sne`, `ieee754_double_to_base2_sne` and
`decimal_to_base2_sne`. The source loop is unbounded; `none` means it did
not finish within `fuel` iterations (for `n = 0` it never finishes). -/
def sneLoop : Nat → Nat → Int → Option (Nat × Int)
  | 0, _, _ => none
  | fuel + 1, n, e =>
    if n &&& 0x01 = 0 then sneLoop fuel (n >>> 1) (e + 1)
    else some (n, e)

/-- `int_to_base2_sne(value)` from real.py. -/
def int_to_base2_sne (fuel : Nat) (value : Int) : Option (Int × Nat × Int) :=
  let s : Int := if value < 0 then -1 else 0
  let n : Nat := if value < 0 then (-value).toNat else value.toNat
  match sneLoop fuel n 0 with
  | none => none
  | some (n', e) => some (s, n', e)

/-- Termination of `int_to_base2_sne` at a given argument: some amount of
fuel makes the normalisation loop finish. -/
def intSneTerminates (value : Int) : Prop :=
  ∃ fuel, (int_to_base2_sne fuel value).isSome

/-- `ieee754_double_to_base2_sne(float_octets)` from real.py, on the 8 bytes
of a big-endian IEEE-754 double (`struct.pack` always supplies exactly 8
bytes, so other lengths are left out of the model). -/
def ieee754_double_to_base2_sne (fuel : Nat) (floatOctets : List Nat) :
    Option SneResult :=
  match floatOctets with
  | [b0, b1, b2, b3, b4, b5, b6, b7] =>
    let sign := b0 >>> 7
    let exp := ((b0 &&& 0x7f) <<< 4) ||| ((b1 >>> 4) &&& 0x0f)
    let frac := natFromBytesBE [b2, b3, b4, b5, b6, b7] + ((b1 &&& 0x0f) <<< 48)
    if exp = 0 then
      if frac = 0 then
        some (if sign = 0 then .sne 0 0 0 else .special 0x43)
      else
        match sneLoop fuel frac (-1074) with
        | none => none
        | some (n, e) => some (.sne (if sign ≠ 0 then -1 else 0) n e)
    else if exp = 0x7ff then
      some (if frac = 0
            then (if sign ≠ 0 then .special 0x41 else .special 0x40)
            else .special 0x42)
    else
      match sneLoop fuel (frac ||| (0x10 <<< 48)) ((exp : Int) - 1075) with
      | none => none
      | some (n, e) => some (.sne (if sign ≠ 0 then -1 else 0) n e)
  | _ => none

/-- `to_binary_encoding(s, n, e, base)` from real.py. Python `divmod` is
floor division with a nonnegative remainder for the positive divisors used
here, which is `Int.ediv`/`Int.emod`. -/
def to_binary_encoding (s : Int) (n : Nat) (e : Int) (base : Nat) :
    Except PyError (List Nat) :=
  let leading0 : Nat := 0x80
  let leading1 := if s ≠ 0 then leading0 ||| 0x40 else leading0
  let efl : Nat × Int × Int :=
    if base = 8 then (leading1 ||| 0x10, e.ediv 3, e.emod 3)
    else if base = 16 then (leading1 ||| 0x20, e.ediv 4, e.emod 4)
    else (leading1, e, 0)
  let leading2 := efl.1 ||| (efl.2.2.toNat <<< 2)
  let expOctets := signed_int_to_bytes efl.2.1
  let expLen := expOctets.length
  if 255 < expLen then .error .unsupportedValue
  else if expLen < 3 then
    .ok (((leading2 ||| ((expLen - 1) &&& 0x03)) :: expOctets) ++ unsigned_int_to_bytes n)
  else
    .ok (((leading2 ||| 0x03) :: expLen :: expOctets) ++ unsigned_int_to_bytes n)

/-- A value produced by the REAL decoder. A Python float is carried as the 8
big-endian bytes of its IEEE-754 encoding (what the source builds in
`packed` and feeds to `struct.unpack`); a `Decimal` produced by the overflow
fallback `Decimal(2) ** e * Decimal(n) * (-1 if s else 1)` is carried as its
three factors. -/
inductive PyValue where
  | dbl (octets : List Nat)
  | decPow2 (e : Int) (n : Nat) (sgn : Int)
  | decStr (payload : List Nat)
  | specialVal (code : Nat)
  deriving DecidableEq, Repr

/-- The mantissa `fn` computed by real.py lines 287–294: when the mantissa
has more than 53 bits it is right-shifted to 53 bits and then — a slip in
the source — XORed with `(1 << 52) - 1` (`^` where the sibling branch uses
`&`), otherwise left-aligned to 53 bits and masked to the low 52. -/
def dtf_fn (n : Nat) : Nat :=
  if 53 < bit_length n then (n >>> (bit_length n - 53)) ^^^ ((1 <<< 52) - 1)
  else (n <<< (53 - bit_length n)) &&& ((1 <<< 52) - 1)

/-- The exponent field `fe` computed by real.py lines 286–296: the base is
folded into a power of two, the mantissa alignment shift applied, then the
fraction width 52 and IEEE-754 bias 1023 added. -/
def dtf_fe (n : Nat) (e : Int) (f base : Nat) : Int :=
  (let fe0 : Int := (if base = 2 then e else if base = 8 then e * 3 else e * 4) + f
   if 53 < bit_length n then fe0 + ((bit_length n - 53 : Nat) : Int)
   else fe0 - ((53 - bit_length n : Nat) : Int)) + 52 + 1023

/-- `decode_to_float(s, n, e, f, base)` from real.py (lines 279–335); the
intermediate quantities of lines 286–296 are factored into `dtf_fn` and
`dtf_fe` above. `pyDebug` models the interpreter's `__debug__` flag. When it
is true (the default run mode) the `assert` statements are active and the
trailing `if __debug__:` diagnostics block (lines 329–333) executes: its
first statement reads the undefined name `b`, so every path that assembles
the packed bytes and falls through to line 329 raises the builtin
`NameError`. When it is false (`python -O`) the asserts and the block are
both skipped and the assembled bytes reach `struct.unpack` and are
returned. The overflow `return Decimal(...)` (line 316) and the underflow
`raise -0.0` (line 306) precede the block and behave the same in both
modes. Note the underflow branch executes `raise -0.0` whenever the shifted
mantissa is zero (the guard `if s:` is always true because `s` is `1` or
`-1`), and the overflow branch multiplies by `(-1 if s else 1)`, which is
likewise always `-1`. -/
def decode_to_float (s : Int) (n : Nat) (e : Int) (f : Nat) (base : Nat)
    (pyDebug : Bool) : Except PyError PyValue :=
  if pyDebug = true ∧ ¬(s = 1 ∨ s = -1) then .error .assertionFailed
  else if pyDebug = true ∧ ¬(base = 2 ∨ base = 8 ∨ base = 16) then
    .error .assertionFailed
  else if pyDebug = true ∧ (base = 2 ∧ 0 < f) then .error .assertionFailed
  else
    let fn := dtf_fn n
    let fe : Int := dtf_fe n e f base
    if fe ≤ 0 then
      let fn1 := (fn ||| (1 <<< 52)) >>> (-fe).toNat
      if fn1 = 0 then .error .typeErrorRaiseFloat
      else
        let fn2 := fn1 >>> 1
        let fnb := natToBytesBE 7 fn2
        if pyDebug = true ∧ fnb.headI &&& 0xf0 ≠ 0 then .error .assertionFailed
        else
          let b1 : Nat := if s < 0 then 0x80 else 0x00
          let b2 : Nat := (0x00 &&& 0xf0) ||| (fnb.headI &&& 0x0f)
          if pyDebug = true then .error .nameErrorUndefinedB
          else .ok (.dbl (b1 :: b2 :: fnb.tail))
    else if 2047 < fe then .ok (.decPow2 e n (-1))
    else
      let fnb := natToBytesBE 7 fn
      if pyDebug = true ∧ (fe.toNat >>> 4) &&& 0x80 ≠ 0 then
        .error .assertionFailed
      else if pyDebug = true ∧ fnb.headI &&& 0xe0 ≠ 0 then
        .error .assertionFailed
      else
        let b1 : Nat := (if s < 0 then 0x80 else 0x00) ||| (fe.toNat >>> 4)
        let b2 : Nat := ((fe.toNat <<< 4) &&& 0xf0) ||| (fnb.headI &&& 0x0f)
        if pyDebug = true then .error .nameErrorUndefinedB
        else .ok (.dbl (b1 :: b2 :: fnb.tail))

/-- The binary branch of `ASN1Real.decode_value` after the base has been
determined (source lines 395–411). The exponent is read with
`int.from_bytes(..., byteorder='big')` and no `signed=True`, i.e. as an
UNSIGNED integer, although `to_binary_encoding` writes it in two's
complement. -/
def decodeValueBinary (leading : Nat) (rest : List Nat) (base : Nat)
    (pyDebug : Bool) : Except PyError PyValue :=
  let s : Int := if leading &&& 0x40 = 0 then 1 else -1
  let f : Nat := (leading &&& 0x0c) >>> 2
  let b2b1 := leading &&& 0x03
  let en : Nat × Nat :=
    if b2b1 = 0x00 then (natFromBytesBE (rest.take 1), natFromBytesBE (rest.drop 1))
    else if b2b1 = 0x01 then (natFromBytesBE (rest.take 2), natFromBytesBE (rest.drop 2))
    else if b2b1 = 0x02 then (natFromBytesBE (rest.take 3), natFromBytesBE (rest.drop 3))
    else
      let el := natFromBytesBE (rest.take 1)
      (natFromBytesBE ((rest.drop 1).take el), natFromBytesBE ((rest.drop 1).drop el))
  decode_to_float s en.2 (en.1 : Int) f base pyDebug

/-- `ASN1Real.decode_value(octets, der)` from real.py (lines 368–411), with
the instance attributes `self._der` and `self._base` as parameters. In the
special-value branch the source returns `SpecialRealValue(leading & 0x0f)`;
the members of `SpecialRealValue` are `0x40`–`0x43`, and `leading & 0x0f`
is at most `0x0f`, so the `IntEnum` call raises `ValueError`. `pyDebug` is
the interpreter's `__debug__` flag, threaded to `decode_to_float` (only the
binary branch is sensitive to it). -/
def asn1real_decode_value (selfBase : Nat) (selfDer : Bool)
    (octets : List Nat) (pyDebug : Bool) : Except PyError PyValue :=
  match octets with
  | [] => .error .indexError
  | leading :: rest =>
    if leading &&& 0xc0 = 0x00 then
      if leading &&& 0x3f < 4 then
        if selfDer ∧ leading &&& 0x3f ≠ 0x03 then .error .derIncompatible
        else .ok (.decStr rest)
      else .error .invalidEncoding
    else if leading &&& 0xc0 = 0x40 then
      if leading &&& 0x3f < 0x04 then
        if leading &&& 0x0f = 0x40 ∨ leading &&& 0x0f = 0x41 ∨
           leading &&& 0x0f = 0x42 ∨ leading &&& 0x0f = 0x43
        then .ok (.specialVal (leading &&& 0x0f))
        else .error .valueError
      else .error .invalidEncoding
    else
      if leading &&& 0x30 = 0x00 then
        if 2 ≠ selfBase then .error .invalidEncoding
        else decodeValueBinary leading rest 2 pyDebug
      else if leading &&& 0x30 = 0x10 then
        if 8 ≠ selfBase then .error .invalidEncoding
        else decodeValueBinary leading rest 8 pyDebug
      else if leading &&& 0x30 = 0x20 then
        if 16 ≠ selfBase then .error .invalidEncoding
        else decodeValueBinary leading rest 16 pyDebug
      else .error .invalidEncoding

/-- The float branch of `ASN1Real.encode_value` (real.py lines 423–428):
decompose the IEEE-754 bytes of the value; a special value is encoded as its
single code byte, otherwise the `(S, N, E)` triple is binary-encoded with
the instance base. -/
def asn1real_encode_value_float (selfBase : Nat) (fuel : Nat)
    (floatOctets : List Nat) : Except PyError (List Nat) :=
  match ieee754_double_to_base2_sne fuel floatOctets with
  | none => .error .fuelExhausted
  | some (.special code) => .ok [code]
  | some (.sne s n e) => to_binary_encoding s n e selfBase

/-! ## StreamDecoder (asn1util/codecs/decoder.py)

The input stream is the full byte list `data` together with a read position
`pos` (Python `BytesIO.tell()`). `Tag.decode`/`Length.decode` are run on
`data.drop pos` and the new position recovered from the unconsumed rest. -/

/-- A finished `Token` of decoder.py: tag and length octets, the decoded
length value, the three offsets, the value octets of a primitive (`none` for
constructed) and the child list of a constructed (`none` for primitive). -/
inductive TokenTree where
  | node (tagOctets lengthOctets : List Nat) (lengthValue : Option Nat)
      (tof lof vof : Nat) (value : Option (List Nat))
      (children : Option (List TokenTree))

/-- A stack frame of the decoder: a constructed token awaiting closure, with
the children collected so far. Python appends each child `Token` into the
parent's mutable list as soon as the child's tag is read and mutates it in
place; the functional model appends the finished child instead, which builds
the same tree. -/
structure DecFrame where
  tagOctets : List Nat
  lengthOctets : List Nat
  lengthValue : Option Nat
  tof : Nat
  lof : Nat
  vof : Nat
  childrenAcc : List TokenTree

/-- Decoder state: the stream, the open-element stack (top first) and the
finished root tokens. -/
structure DecState where
  data : List Nat
  pos : Nat
  stack : List DecFrame
  roots : List TokenTree

/-- Python `self._current.length != 0` in `_check_to_end_constructed`
(decoder.py line 174): `self._current.length` is a `Length` object and
`Length` defines neither `__eq__` nor `__ne__`, so the comparison with the
int `0` falls back to object identity and is ALWAYS true. -/
def lengthObjectNeIntZero (_lengthValue : Option Nat) : Bool := true

/-- Attach a finished token to the top frame's child list, or to the roots
when the stack is empty. -/
def attachToken (stack : List DecFrame) (roots : List TokenTree)
    (tok : TokenTree) : List DecFrame × List TokenTree :=
  match stack with
  | [] => ([], roots ++ [tok])
  | top :: more => ({ top with childrenAcc := top.childrenAcc ++ [tok] } :: more, roots)

/-- Close a frame into its finished constructed token. -/
def frameToToken (f : DecFrame) : TokenTree :=
  .node f.tagOctets f.lengthOctets f.lengthValue f.tof f.lof f.vof none
    (some f.childrenAcc)

/-- `StreamDecoder._check_to_end_constructed` (decoder.py lines 153–179):
pop definite parents whose value field the position has exactly reached
(error when it is exceeded), pop an indefinite parent when the current token
is an EOC — except that the length check on the EOC always fails, see
`lengthObjectNeIntZero`. `current` is the token just finished (updated to
the popped parent as the loop repeats). Each iteration pops one frame, so
the stack height is enough fuel. -/
def checkToEnd (pos : Nat) : Nat → List DecFrame → List TokenTree → TokenTree →
    Except PyError (List DecFrame × List TokenTree)
  | 0, _, _, _ => .error .fuelExhausted
  | _ + 1, [], roots, _ => .ok ([], roots)
  | fuel + 1, parent :: restStack, roots, current =>
    match parent.lengthValue with
    | some lv =>
      if parent.vof + lv = pos then
        let parentTok := frameToToken parent
        match attachToken restStack roots parentTok with
        | (stack', roots') => checkToEnd pos fuel stack' roots' parentTok
      else if parent.vof + lv < pos then .error .invalidEncoding
      else .ok (parent :: restStack, roots)
    | none =>
      match current with
      | .node tagOctets _ lengthValue _ _ _ _ _ =>
        if tagOctets = [0x00] then
          if lengthObjectNeIntZero lengthValue then .error .invalidEncoding
          else
            let parentTok := frameToToken parent
            match attachToken restStack roots parentTok with
            | (stack', roots') => checkToEnd pos fuel stack' roots' parentTok
        else .ok (parent :: restStack, roots)

/-- One `StreamDecoder.proceed_token` step (decoder.py lines 93–128).
Returns `none` when the stream is cleanly exhausted, otherwise the updated
state. -/
def proceedToken (st : DecState) : Except PyError (Option DecState) :=
  let tof := st.pos
  let remaining := st.data.drop st.pos
  match tagDecode remaining with
  | .error e => .error e
  | .ok (none, _) =>
    match st.stack with
    | _ :: _ => .error .invalidEncoding
    | [] => .ok none
  | .ok (some tag, afterTag) =>
    let lof := tof + (remaining.length - afterTag.length)
    match lengthDecode afterTag false with
    | .error e => .error e
    | .ok (none, _) => .error .invalidEncoding
    | .ok (some length, afterLength) =>
      let vof := lof + (afterTag.length - afterLength.length)
      if tag.pc = 0x00 then
        match length.value with
        | none => .error .invalidEncoding
        | some lv =>
          let valueOctets := (st.data.drop vof).take lv
          if valueOctets.length < lv then .error .invalidEncoding
          else
            let tok : TokenTree :=
              .node tag.octets length.octets length.value tof lof vof
                (some valueOctets) none
            let pos' := vof + lv
            match attachToken st.stack st.roots tok with
            | (stack', roots') =>
              match checkToEnd pos' (stack'.length + 1) stack' roots' tok with
              | .error e => .error e
              | .ok (stack'', roots'') =>
                .ok (some ⟨st.data, pos', stack'', roots''⟩)
      else
        let frame : DecFrame :=
          ⟨tag.octets, length.octets, length.value, tof, lof, vof, []⟩
        .ok (some ⟨st.data, vof, frame :: st.stack, st.roots⟩)

/-- `StreamDecoder.decode` (`while self.proceed_token(): pass`), driven by
fuel; every step consumes at least one byte, so `data.length + 1` steps
always suffice. -/
def decodeLoop : Nat → DecState → Except PyError (List TokenTree)
  | 0, _ => .error .fuelExhausted
  | fuel + 1, st =>
    match proceedToken st with
    | .error e => .error e
    | .ok none => .ok st.roots
    | .ok (some st') => decodeLoop fuel st'

/-- `StreamDecoder(data).decode()` on a byte string. -/
def streamDecode (data : List Nat) : Except PyError (List TokenTree) :=
  decodeLoop (data.length + 1) ⟨data, 0, [], []⟩

/-! ## StreamEncoder (asn1util/codecs/encoder.py) -/

/-- A frame of `StreamEncoder._stack`: the Python tuple
`(tag, indefinite_length, output-or-buffer)`. For a definite frame the third
component is a fresh `BytesIO` buffer, modelled here by `buffer`; for an
indefinite frame it is an alias of the sink that was current when the frame
was pushed, which the model recovers by walking down the stack (see
`encoderWrite`). -/
structure EncFrame where
  tagOctets : List Nat
  indefinite : Bool
  buffer : List Nat
  deriving DecidableEq, Repr

/-- Encoder state: the open-construction stack (top first) and the root
output stream. -/
structure EncState where
  stack : List EncFrame
  stream : List Nat
  deriving DecidableEq, Repr

/-- Append bytes to the currently active sink: the root stream when the
stack is empty, the top frame's buffer when the top frame is definite, and
otherwise (indefinite top frame, whose stored sink aliases the one that was
current beneath it) the sink of the rest of the stack. -/
def encoderWrite (st : EncState) (bs : List Nat) : EncState :=
  match st with
  | ⟨[], out⟩ => ⟨[], out ++ bs⟩
  | ⟨f :: rest, out⟩ =>
    if f.indefinite then
      let st' := encoderWrite ⟨rest, out⟩ bs
      ⟨f :: st'.stack, st'.stream⟩
    else ⟨{ f with buffer := f.buffer ++ bs } :: rest, out⟩

/-- `StreamEncoder.end_constructed` (encoder.py lines 43–60). With an empty
stack, `self._stack.pop()` raises the builtin `IndexError` (`pop from empty
list`) — there is no guard. An indefinite frame writes the EOC marker to its
parent sink. A definite frame calls `Length.eval(len(octets))`; class
`Length` of tlv.py defines no attribute `eval`, so that call raises the
builtin `AttributeError`. -/
def end_constructed (st : EncState) : Except PyError EncState :=
  match st.stack with
  | [] => .error .indexError
  | f :: rest =>
    if f.indefinite then .ok (encoderWrite ⟨rest, st.stream⟩ [0x00, 0x00])
    else .error .attributeError

/-- Sign bit and exponent field of a packed big-endian IEEE-754 double:
the top bit of the first byte, and the next 11 bits. -/
def packedSignBit (bs : List Nat) : Nat := bs.headI >>> 7

/-- Exponent field (11 bits) of a packed big-endian IEEE-754 double. -/
def packedExpField (bs : List Nat) : Nat :=
  ((bs.headI &&& 0x7f) <<< 4) ||| ((bs.getD 1 0 >>> 4) &&& 0x0f)

/-! # Theorems -/

/-! ## Supporting lemmas about the byte and bit helpers -/

theorem bitLenAux_lt_two_pow : ∀ fuel n, n ≤ fuel → n < 2 ^ bitLenAux fuel n := by
  intro fuel
  induction fuel with
  | zero => intro n hn; interval_cases n; simp [bitLenAux]
  | succ fuel ih =>
    intro n hn
    by_cases h0 : n = 0
    · subst h0; simp [bitLenAux]
    · have hdiv : n / 2 ≤ fuel := by omega
      have := ih (n / 2) hdiv
      have hmod : n % 2 < 2 := Nat.mod_lt _ (by omega)
      have hsplit := Nat.div_add_mod n 2
      simp only [bitLenAux, h0, if_false]
      have : n < 2 ^ (bitLenAux fuel (n / 2) + 1) := by
        rw [pow_succ]
        omega
      exact this

theorem bitLenAux_pos : ∀ fuel n, n ≠ 0 → n ≤ fuel → 0 < bitLenAux fuel n := by
  intro fuel n h0 hn
  cases fuel with
  | zero => omega
  | succ fuel => simp [bitLenAux, h0]

theorem bitLenAux_of_zero : ∀ fuel, bitLenAux fuel 0 = 0 := by
  intro fuel
  cases fuel with
  | zero => rfl
  | succ fuel => simp [bitLenAux]

theorem two_pow_bitLenAux_pred_le :
    ∀ fuel n, n ≤ fuel → n ≠ 0 → 2 ^ (bitLenAux fuel n - 1) ≤ n := by
  intro fuel
  induction fuel with
  | zero => intro n hn h0; omega
  | succ fuel ih =>
    intro n hn h0
    simp only [bitLenAux, h0, if_false]
    by_cases hd : n / 2 = 0
    · have hn1 : n = 1 := by omega
      subst hn1
      simp [hd, bitLenAux_of_zero]
    · have hdiv : n / 2 ≤ fuel := by omega
      have hbase := ih (n / 2) hdiv hd
      have hpos := bitLenAux_pos fuel (n / 2) hd hdiv
      have hstep : 2 ^ bitLenAux fuel (n / 2) ≤ 2 * (n / 2) := by
        calc 2 ^ bitLenAux fuel (n / 2)
            = 2 * 2 ^ (bitLenAux fuel (n / 2) - 1) := by
              rw [← pow_succ']
              congr 1
              omega
          _ ≤ 2 * (n / 2) := by omega
      have hmd := Nat.div_add_mod n 2
      simp only [Nat.add_sub_cancel]
      omega

theorem bit_length_lt_two_pow (n : Nat) : n < 2 ^ bit_length n :=
  bitLenAux_lt_two_pow n n le_rfl

theorem two_pow_bit_length_pred_le (n : Nat) (h : n ≠ 0) :
    2 ^ (bit_length n - 1) ≤ n :=
  two_pow_bitLenAux_pred_le n n le_rfl h

theorem bit_length_le_iff (n k : Nat) : bit_length n ≤ k ↔ n < 2 ^ k := by
  constructor
  · intro h
    exact lt_of_lt_of_le (bit_length_lt_two_pow n)
      (Nat.pow_le_pow_right (by omega) h)
  · intro h
    by_contra hk
    push_neg at hk
    have h0 : n ≠ 0 := by
      intro h0
      subst h0
      simp [bit_length, bitLenAux] at hk
    have := two_pow_bit_length_pred_le n h0
    have : 2 ^ k ≤ n :=
      le_trans (Nat.pow_le_pow_right (by omega) (by omega)) this
    omega

theorem length_natToBytesBE : ∀ k v, (natToBytesBE k v).length = k := by
  intro k
  induction k with
  | zero => intro v; rfl
  | succ k ih => intro v; simp [natToBytesBE, ih]

theorem natFromBytesBE_append_singleton (xs : List Nat) (b : Nat) :
    natFromBytesBE (xs ++ [b]) = natFromBytesBE xs * 256 + b := by
  simp [natFromBytesBE, List.foldl_append]

theorem natFromBytesBE_natToBytesBE :
    ∀ k v, natFromBytesBE (natToBytesBE k v) = v % 256 ^ k := by
  intro k
  induction k with
  | zero => intro v; simp [natToBytesBE, natFromBytesBE, Nat.mod_one]
  | succ k ih =>
    intro v
    rw [natToBytesBE, natFromBytesBE_append_singleton, ih]
    have h1 : (256 : Nat) ^ (k + 1) = 256 * 256 ^ k := by ring
    have h4 := Nat.div_add_mod (v % (256 * 256 ^ k)) 256
    have h5 : v % (256 * 256 ^ k) / 256 = v / 256 % 256 ^ k :=
      Nat.mod_mul_right_div_self v 256 (256 ^ k)
    have h6 : v % (256 * 256 ^ k) % 256 = v % 256 :=
      Nat.mod_mod_of_dvd v ⟨256 ^ k, rfl⟩
    rw [h1]
    omega

/-! ## Lemmas about the mantissa normalisation loop -/

theorem sneLoop_zero : ∀ fuel e, sneLoop fuel 0 e = none := by
  intro fuel
  induction fuel with
  | zero => intro e; rfl
  | succ fuel ih => intro e; simpa [sneLoop] using ih (e + 1)

theorem sneLoop_odd : ∀ fuel n e n' e',
    sneLoop fuel n e = some (n', e') → n' % 2 = 1 := by
  intro fuel
  induction fuel with
  | zero => intro n e n' e' h; simp [sneLoop] at h
  | succ fuel ih =>
    intro n e n' e' h
    rw [sneLoop] at h
    by_cases hpar : n &&& 0x01 = 0
    · rw [if_pos hpar] at h
      exact ih _ _ _ _ h
    · rw [if_neg hpar] at h
      have hm : n % 2 = 1 := by
        have := Nat.and_one_is_mod n
        omega
      cases h
      omega

theorem sneLoop_total : ∀ fuel n e, n ≠ 0 → n ≤ fuel →
    ∃ n' e', sneLoop fuel n e = some (n', e') ∧ n' % 2 = 1 := by
  intro fuel
  induction fuel with
  | zero => intro n e h0 hn; omega
  | succ fuel ih =>
    intro n e h0 hn
    rw [sneLoop]
    by_cases hpar : n &&& 0x01 = 0
    · rw [if_pos hpar]
      have hm : n % 2 = 0 := by
        have := Nat.and_one_is_mod n
        omega
      have hshift : n >>> 1 = n / 2 := Nat.shiftRight_one n
      have hd0 : n / 2 ≠ 0 := by omega
      have hdle : n / 2 ≤ fuel := by omega
      rw [hshift]
      exact ih (n / 2) (e + 1) hd0 hdle
    · rw [if_neg hpar]
      refine ⟨n, e, rfl, ?_⟩
      have := Nat.and_one_is_mod n
      omega

/-! ## Claim theorems -/

/-- C1. The claim states that for every finite double `f`, decomposing with
`ieee754_double_to_base2_sne`, encoding with `to_binary_encoding` and
decoding back through `ASN1Real.decode_value` / `decode_to_float` returns
exactly `f`. The code violates this: for `f = 0.5` (IEEE-754 bytes
`3f e0 00 00 00 00 00 00`, decomposition `(0, 1, -1)`) the encoder writes
the exponent `-1` in two's complement as `0xff`, but `decode_value` reads it
back UNSIGNED as `255`, so under `python -O` (`__debug__` false) the decoded
bytes `4f e0 00 00 00 00 00 00` are the double `2^255`, not `0.5` — and
under default flags (`__debug__` true) decoding does not return at all: the
diagnostics block of `decode_to_float` raises `NameError` on the undefined
name `b`. The round trip fails in both interpreter modes. -/
theorem real_roundtrip_code_bug_at_half :
    asn1real_encode_value_float 2 (2 ^ 54) [0x3f, 0xe0, 0, 0, 0, 0, 0, 0] =
      .ok [0x80, 0xff, 0x01] ∧
    asn1real_decode_value 2 false [0x80, 0xff, 0x01] false =
      .ok (.dbl [0x4f, 0xe0, 0, 0, 0, 0, 0, 0]) ∧
    asn1real_decode_value 2 false [0x80, 0xff, 0x01] true =
      .error .nameErrorUndefinedB ∧
    [0x4f, 0xe0, 0, 0, 0, 0, 0, 0] ≠ [0x3f, 0xe0, 0, 0, 0, 0, 0, 0] :=
  ⟨rfl, rfl, rfl, by decide⟩

/-- C2. The claim states that the stream decoder accepts
`30 80 04 03 31 32 33 04 04 34 35 36 37 00 00` (an indefinite-length
SEQUENCE with two OctetString children closed by EOC) and rejects the
truncation `30 80 04 03 31 32 33 00 00` with `InvalidEncoding`. The code
instead raises `InvalidEncoding` on BOTH inputs at the first EOC marker:
`_check_to_end_constructed` compares the EOC token's `Length` OBJECT with
the int `0` (`self._current.length != 0`), which is always true because
`Length` defines no `__eq__`, so every EOC is reported as having nonzero
length and no indefinite-length element can ever be closed. -/
theorem stream_decoder_indefinite_code_bug :
    streamDecode [0x30, 0x80, 0x04, 0x03, 0x31, 0x32, 0x33,
                  0x04, 0x04, 0x34, 0x35, 0x36, 0x37, 0x00, 0x00] =
      .error .invalidEncoding ∧
    streamDecode [0x30, 0x80, 0x04, 0x03, 0x31, 0x32, 0x33, 0x00, 0x00] =
      .error .invalidEncoding :=
  ⟨rfl, rfl⟩

/-- C3. The claim states that `Tag.build(class, type, n)` round-trips
through `Tag.decode` preserving class, flag and number for every `n ≥ 0`,
with the minimal encoding. The code violates this twice: the long-form
branch of `Tag.__init__` initialises `self._number = 0` and never
accumulates the continuation digits, so `Tag.build(0, 0, 31)` yields a tag
whose `number` attribute is `0`, and `Tag.decode` of its octets
`1f 1f` returns number `0` as well, not `31`; moreover `Tag.build(0, 0, 64)`
raises `InvalidEncoding` outright, because the constructor rejects a first
continuation byte whose low SIX bits are zero (`octet & 0x3f == 0`, mask
`0x3f` instead of `0x7f`) and the top base-128 digit of 64 is `0x40`. -/
theorem tag_build_decode_code_bug :
    tagBuild 0x00 0x00 31 = .ok ⟨[0x1f, 0x1f], 0x00, 0x00, 0⟩ ∧
    tagDecode [0x1f, 0x1f] = .ok (some ⟨[0x1f, 0x1f], 0x00, 0x00, 0⟩, []) ∧
    (0 : Nat) ≠ 31 ∧
    tagBuild 0x00 0x00 64 = .error .invalidEncoding :=
  ⟨rfl, rfl, by decide, rfl⟩

/-- C7. The claim states that the special REAL values round-trip: each is
encoded as its single special-form byte and decoded back to the same
category. Encoding does produce the single bytes (`0x40` for `+inf`, `0x43`
for `-0.0`), but `ASN1Real.decode_value` can never decode ANY special
value: it executes `SpecialRealValue(leading & 0x0f)`, and `leading & 0x0f`
is at most 15 while the enum members are `0x40`–`0x43`, so the call raises
`ValueError` for all four codes (nor is there any check rejecting content
bytes after a special first byte in this method). The special branch never
reaches `decode_to_float`, so the failure is the same under default flags
and under `python -O`. -/
theorem real_special_decode_code_bug :
    asn1real_encode_value_float 2 (2 ^ 54) [0x7f, 0xf0, 0, 0, 0, 0, 0, 0] =
      .ok [0x40] ∧
    asn1real_encode_value_float 2 (2 ^ 54) [0x80, 0, 0, 0, 0, 0, 0, 0] =
      .ok [0x43] ∧
    asn1real_decode_value 2 false [0x40] true = .error .valueError ∧
    asn1real_decode_value 2 false [0x40] false = .error .valueError ∧
    asn1real_decode_value 2 false [0x43] true = .error .valueError ∧
    asn1real_decode_value 2 false [0x43] false = .error .valueError :=
  ⟨rfl, rfl, rfl, rfl, rfl, rfl⟩

/-- C9. The claim states that `Length.decode` raises `InvalidEncoding` when
a long form declares more following bytes than remain, and that a leading
byte `0xFF` always raises `InvalidEncoding`. The code instead executes
`raise InvalidTLV(...)` in both truncation cases — and `InvalidTLV` is an
undefined name in `tlv.py`, so the statement raises the builtin `NameError`,
not `InvalidEncoding`: `Length.decode(b'\x81')` (one following byte
declared, none present) and `Length.decode(b'\xff')` (`0xFF` declares 127
following bytes, none present) both hit it. Only a `0xFF` followed by at
least 127 bytes reaches the constructor's `InvalidEncoding`. -/
theorem length_decode_truncated_code_bug :
    lengthDecode [0x81] false = .error .nameErrorInvalidTLV ∧
    lengthDecode [0xff] false = .error .nameErrorInvalidTLV ∧
    lengthDecode ([0xff] ++ List.replicate 127 0x00) false =
      .error .invalidEncoding :=
  ⟨rfl, rfl, rfl⟩

/-- C6, counterexample. The claim asserts that the decomposition terminates
for EVERY Python integer, but `int_to_base2_sne(0)` never leaves the loop
`while n & 0x01 == 0: n >>= 1`, since `0 & 1 == 0` and `0 >> 1 == 0`: no
amount of fuel makes the model return a value. -/
theorem int_sne_zero_diverges : ¬ intSneTerminates 0 := by
  rintro ⟨fuel, h⟩
  simp [intSneTerminates, int_to_base2_sne, sneLoop_zero] at h

/-- C6, amended. For every NONZERO integer `int_to_base2_sne` terminates
(fuel `value.natAbs` suffices) and returns an odd mantissa; and
`ieee754_double_to_base2_sne` terminates on every 8-byte input, returning a
special value or a triple whose mantissa is odd unless it is exactly zero —
whenever it returns a triple, at any fuel, its mantissa is zero or odd. At
the integer `0` the loop does not terminate (see the counterexample). -/
theorem sne_termination_and_oddness :
    (∀ value : Int, value ≠ 0 →
      ∃ p : Int × Nat × Int, int_to_base2_sne value.natAbs value = some p ∧
        p.2.1 % 2 = 1) ∧
    (∀ floatOctets : List Nat, floatOctets.length = 8 →
      ∃ fuel r, ieee754_double_to_base2_sne fuel floatOctets = some r) ∧
    (∀ fuel floatOctets s n e,
      ieee754_double_to_base2_sne fuel floatOctets = some (.sne s n e) →
      n = 0 ∨ n % 2 = 1) := by
  refine ⟨?_, ?_, ?_⟩
  · intro value hv
    have habs : (if value < 0 then (-value).toNat else value.toNat) = value.natAbs := by
      by_cases hneg : value < 0 <;> simp [hneg] <;> omega
    have hne : value.natAbs ≠ 0 := by omega
    obtain ⟨n', e', heq, hodd⟩ :=
      sneLoop_total value.natAbs value.natAbs 0 hne le_rfl
    refine ⟨(if value < 0 then (-1 : Int) else 0, n', e'), ?_, hodd⟩
    simp only [int_to_base2_sne, habs, heq]
  · intro l hl
    rcases l with _ | ⟨b0, l⟩; · simp at hl
    rcases l with _ | ⟨b1, l⟩; · simp at hl
    rcases l with _ | ⟨b2, l⟩; · simp at hl
    rcases l with _ | ⟨b3, l⟩; · simp at hl
    rcases l with _ | ⟨b4, l⟩; · simp at hl
    rcases l with _ | ⟨b5, l⟩; · simp at hl
    rcases l with _ | ⟨b6, l⟩; · simp at hl
    rcases l with _ | ⟨b7, l⟩; · simp at hl
    rcases l with _ | ⟨b8, l⟩
    · by_cases he0 : ((b0 &&& 0x7f) <<< 4) ||| ((b1 >>> 4) &&& 0x0f) = 0
      · by_cases hf0 :
            natFromBytesBE [b2, b3, b4, b5, b6, b7] + ((b1 &&& 0x0f) <<< 48) = 0
        · refine ⟨1, if b0 >>> 7 = 0 then SneResult.sne 0 0 0
            else SneResult.special 0x43, ?_⟩
          simp only [ieee754_double_to_base2_sne]
          rw [if_pos he0, if_pos hf0]
        · obtain ⟨n', e', heq, _⟩ :=
            sneLoop_total
              (natFromBytesBE [b2, b3, b4, b5, b6, b7] + ((b1 &&& 0x0f) <<< 48))
              (natFromBytesBE [b2, b3, b4, b5, b6, b7] + ((b1 &&& 0x0f) <<< 48))
              (-1074) hf0 le_rfl
          refine ⟨natFromBytesBE [b2, b3, b4, b5, b6, b7] + ((b1 &&& 0x0f) <<< 48),
            SneResult.sne (if b0 >>> 7 ≠ 0 then -1 else 0) n' e', ?_⟩
          simp only [ieee754_double_to_base2_sne]
          rw [if_pos he0, if_neg hf0, heq]
      · by_cases he7 : ((b0 &&& 0x7f) <<< 4) ||| ((b1 >>> 4) &&& 0x0f) = 0x7ff
        · refine ⟨1,
            if natFromBytesBE [b2, b3, b4, b5, b6, b7] + ((b1 &&& 0x0f) <<< 48) = 0
            then (if b0 >>> 7 ≠ 0 then SneResult.special 0x41 else SneResult.special 0x40)
            else SneResult.special 0x42, ?_⟩
          simp only [ieee754_double_to_base2_sne]
          rw [if_neg he0, if_pos he7]
        · have hne :
              (natFromBytesBE [b2, b3, b4, b5, b6, b7] + ((b1 &&& 0x0f) <<< 48)) |||
                (0x10 <<< 48) ≠ 0 := by
            intro h
            have h1 : ((natFromBytesBE [b2, b3, b4, b5, b6, b7] +
                ((b1 &&& 0x0f) <<< 48)) ||| (0x10 <<< 48)).testBit 52 = false := by
              rw [h]; exact Nat.zero_testBit 52
            have h2 : (0x10 <<< 48 : Nat) = 2 ^ 52 := by
              rw [Nat.shiftLeft_eq]; norm_num
            rw [Nat.testBit_or, h2, Nat.testBit_two_pow_self] at h1
            simp at h1
          obtain ⟨n', e', heq, _⟩ :=
            sneLoop_total _ _
              ((((((b0 &&& 0x7f) <<< 4) ||| ((b1 >>> 4) &&& 0x0f)) : Nat) : Int) - 1075)
              hne le_rfl
          refine ⟨(natFromBytesBE [b2, b3, b4, b5, b6, b7] + ((b1 &&& 0x0f) <<< 48)) |||
              (0x10 <<< 48),
            SneResult.sne (if b0 >>> 7 ≠ 0 then -1 else 0) n' e', ?_⟩
          simp only [ieee754_double_to_base2_sne]
          rw [if_neg he0, if_neg he7, heq]
    · simp at hl
  · intro fuel l s n e h
    rcases l with _ | ⟨b0, l⟩; · simp [ieee754_double_to_base2_sne] at h
    rcases l with _ | ⟨b1, l⟩; · simp [ieee754_double_to_base2_sne] at h
    rcases l with _ | ⟨b2, l⟩; · simp [ieee754_double_to_base2_sne] at h
    rcases l with _ | ⟨b3, l⟩; · simp [ieee754_double_to_base2_sne] at h
    rcases l with _ | ⟨b4, l⟩; · simp [ieee754_double_to_base2_sne] at h
    rcases l with _ | ⟨b5, l⟩; · simp [ieee754_double_to_base2_sne] at h
    rcases l with _ | ⟨b6, l⟩; · simp [ieee754_double_to_base2_sne] at h
    rcases l with _ | ⟨b7, l⟩; · simp [ieee754_double_to_base2_sne] at h
    rcases l with _ | ⟨b8, l⟩
    · simp only [ieee754_double_to_base2_sne] at h
      by_cases he0 : ((b0 &&& 0x7f) <<< 4) ||| ((b1 >>> 4) &&& 0x0f) = 0
      · rw [if_pos he0] at h
        by_cases hf0 :
            natFromBytesBE [b2, b3, b4, b5, b6, b7] + ((b1 &&& 0x0f) <<< 48) = 0
        · rw [if_pos hf0] at h
          by_cases hs : b0 >>> 7 = 0
          · rw [if_pos hs] at h
            cases h
            omega
          · rw [if_neg hs] at h
            cases h
        · rw [if_neg hf0] at h
          cases hloop : sneLoop fuel
              (natFromBytesBE [b2, b3, b4, b5, b6, b7] + ((b1 &&& 0x0f) <<< 48))
              (-1074) with
          | none => rw [hloop] at h; cases h
          | some p =>
            obtain ⟨n', e'⟩ := p
            rw [hloop] at h
            cases h
            exact Or.inr (sneLoop_odd fuel _ _ _ _ hloop)
      · rw [if_neg he0] at h
        by_cases he7 : ((b0 &&& 0x7f) <<< 4) ||| ((b1 >>> 4) &&& 0x0f) = 0x7ff
        · rw [if_pos he7] at h
          by_cases hf0 :
              natFromBytesBE [b2, b3, b4, b5, b6, b7] + ((b1 &&& 0x0f) <<< 48) = 0
          · rw [if_pos hf0] at h
            by_cases hs : b0 >>> 7 ≠ 0 <;> simp [hs] at h
          · rw [if_neg hf0] at h
            cases h
        · rw [if_neg he7] at h
          cases hloop : sneLoop fuel
              ((natFromBytesBE [b2, b3, b4, b5, b6, b7] + ((b1 &&& 0x0f) <<< 48)) |||
                (0x10 <<< 48))
              ((((((b0 &&& 0x7f) <<< 4) ||| ((b1 >>> 4) &&& 0x0f)) : Nat) : Int) - 1075) with
          | none => rw [hloop] at h; cases h
          | some p =>
            obtain ⟨n', e'⟩ := p
            rw [hloop] at h
            cases h
            exact Or.inr (sneLoop_odd fuel _ _ _ _ hloop)
    · simp [ieee754_double_to_base2_sne] at h

/-- C6, witness for the amended theorem: the nonzero integer `6` decomposes
(to `(0, 3, 1)`, with odd mantissa `3`), the 8 bytes of the double `1.0`
decompose with some fuel, and the concrete successful decomposition of `1.0`
at fuel `2 ^ 54` (giving mantissa `1`) has a zero-or-odd mantissa. -/
theorem sne_termination_and_oddness_witness :
    (∃ p : Int × Nat × Int, int_to_base2_sne (Int.natAbs 6) 6 = some p ∧
      p.2.1 % 2 = 1) ∧
    (∃ fuel r, ieee754_double_to_base2_sne fuel
      [0x3f, 0xf0, 0, 0, 0, 0, 0, 0] = some r) ∧
    ((1 : Nat) = 0 ∨ (1 : Nat) % 2 = 1) :=
  ⟨sne_termination_and_oddness.1 6 (by decide),
   sne_termination_and_oddness.2.1 [0x3f, 0xf0, 0, 0, 0, 0, 0, 0] (by decide),
   sne_termination_and_oddness.2.2 (2 ^ 54) [0x3f, 0xf0, 0, 0, 0, 0, 0, 0]
     0 1 0 (by rfl)⟩

/-- Bitwise facts on bytes, settled by bounded enumeration. -/
theorem byte_and_127 : ∀ v, v < 128 → v &&& 127 = v := by decide

theorem byte_and_128 : ∀ v, v < 128 → v &&& 128 = 0 := by decide

theorem byte_lor_128 : ∀ k, k < 128 → k ||| 128 = 128 + k := by decide

theorem byte_add128_and_127 : ∀ k, k < 128 → (128 + k) &&& 127 = k := by decide

theorem byte_add128_and_128 : ∀ k, k < 128 → (128 + k) &&& 128 = 128 := by decide

/-- C4, counterexample. The claim states that `Length.build(v)` returns the
single-byte short form for every `0 ≤ v < 128`; the code tests
`length_value < 127`, so `Length.build(127)` takes the LONG form and returns
the two octets `81 7f`, not the single byte `7f`. -/
theorem length_build_127_long_form :
    lengthBuild 127 = .ok ⟨[0x81, 0x7f], some 127⟩ ∧
    [0x81, 0x7f] ≠ [0x7f] :=
  ⟨rfl, by decide⟩

/-- C4, amended. `Length.build(v)` returns the single-byte short form
exactly for `0 ≤ v < 127` (not `< 128`). For `v ≥ 127` it returns the long
form with the minimal byte count `k = (bit_length(v) + 7) / 8` (that is,
`256 ^ (k-1) ≤ v < 256 ^ k`), and decoding the built octets yields `v` back
(the built object's `value` is `v`). It fails when `k = 127` — the leading
byte would be the reserved `0xff`, rejected by the constructor with
`InvalidEncoding` — and when `k > 127`, via the raise of the undefined name
`InvalidTLV` (a `NameError`), so the claim's `count exceeds 127` failure
condition also misses the `k = 127` case. -/
theorem length_build_characterisation (v : Nat) :
    (v < 127 → lengthBuild (v : Int) = .ok ⟨[v], some v⟩) ∧
    (127 ≤ v → (bit_length v + 7) / 8 ≤ 126 →
      lengthBuild (v : Int) =
        .ok ⟨(((bit_length v + 7) / 8) ||| 0x80) ::
              natToBytesBE ((bit_length v + 7) / 8) v, some v⟩ ∧
      v < 256 ^ ((bit_length v + 7) / 8) ∧
      256 ^ ((bit_length v + 7) / 8 - 1) ≤ v) ∧
    ((bit_length v + 7) / 8 = 127 → lengthBuild (v : Int) = .error .invalidEncoding) ∧
    (127 < (bit_length v + 7) / 8 → lengthBuild (v : Int) = .error .nameErrorInvalidTLV) := by
  have htn : ((v : Int)).toNat = v := Int.toNat_natCast v
  have hbl8 : v < 2 ^ (8 * ((bit_length v + 7) / 8)) := by
    have h1 : bit_length v ≤ 8 * ((bit_length v + 7) / 8) := by omega
    exact lt_of_lt_of_le (bit_length_lt_two_pow v) (Nat.pow_le_pow_right (by omega) h1)
  have h256 : ∀ k : Nat, (256 : Nat) ^ k = 2 ^ (8 * k) := by
    intro k
    rw [show (256 : Nat) = 2 ^ 8 by norm_num, ← pow_mul]
  refine ⟨?_, ?_, ?_, ?_⟩
  · intro h
    rw [lengthBuild, if_neg (by omega : ¬((v : Int) < 0)),
      if_pos (by omega : (v : Int) < 127), htn]
    simp only [lengthInit, List.length_cons, List.length_nil]
    rw [if_neg (by omega : ¬(v = 0x80)),
      if_pos (byte_and_128 v (by omega)),
      if_neg (by omega : ¬((1 : Nat) ≠ 1)),
      byte_and_127 v (by omega)]
  · intro h hk
    have hkpos : 1 ≤ (bit_length v + 7) / 8 := by
      have : ¬(bit_length v ≤ 6) := by
        rw [bit_length_le_iff]
        omega
      omega
    have hklt : (bit_length v + 7) / 8 < 128 := by omega
    have hlead : ((bit_length v + 7) / 8) ||| 0x80 = 128 + (bit_length v + 7) / 8 :=
      byte_lor_128 _ hklt
    have hlen : (natToBytesBE ((bit_length v + 7) / 8) v).length =
        (bit_length v + 7) / 8 := length_natToBytesBE _ _
    refine ⟨?_, ?_, ?_⟩
    · rw [lengthBuild, if_neg (by omega : ¬((v : Int) < 0)),
        if_neg (by omega : ¬((v : Int) < 127)), htn,
        if_neg (by omega : ¬(127 < (bit_length v + 7) / 8))]
      simp only [lengthInit, List.length_cons, hlen, hlead]
      rw [if_neg (by omega : ¬(128 + (bit_length v + 7) / 8 = 0x80)),
        if_neg (by rw [byte_add128_and_128 _ hklt]; omega),
        if_neg (by omega : ¬(128 + (bit_length v + 7) / 8 = 0xff)),
        if_neg (by rw [byte_add128_and_127 _ hklt]; omega),
        natFromBytesBE_natToBytesBE,
        Nat.mod_eq_of_lt (by rw [h256]; exact hbl8)]
    · rw [h256]; exact hbl8
    · have hv0 : v ≠ 0 := by omega
      have h2 : 8 * ((bit_length v + 7) / 8 - 1) ≤ bit_length v - 1 := by omega
      calc (256 : Nat) ^ ((bit_length v + 7) / 8 - 1)
          = 2 ^ (8 * ((bit_length v + 7) / 8 - 1)) := h256 _
        _ ≤ 2 ^ (bit_length v - 1) := Nat.pow_le_pow_right (by omega) h2
        _ ≤ v := two_pow_bit_length_pred_le v hv0
  · intro hk
    have hge : ¬((v : Int) < 127) := by
      intro hlt
      have : v < 127 := by omega
      have : bit_length v ≤ 7 := by
        rw [bit_length_le_iff]
        omega
      omega
    rw [lengthBuild, if_neg (by omega : ¬((v : Int) < 0)), if_neg hge, htn,
      hk, if_neg (by omega : ¬((127 : Nat) < 127))]
    simp only [lengthInit, List.length_cons, length_natToBytesBE]
    rw [show (127 : Nat) ||| 0x80 = 255 from byte_lor_128 127 (by omega)]
    rw [if_neg (by omega : ¬((255 : Nat) = 0x80)),
      if_neg (show ¬((255 : Nat) &&& 0x80 = 0) by decide),
      if_pos (show (255 : Nat) = 0xff from rfl)]
  · intro hk
    have hge : ¬((v : Int) < 127) := by
      intro hlt
      have : v < 127 := by omega
      have : bit_length v ≤ 7 := by
        rw [bit_length_le_iff]
        omega
      omega
    rw [lengthBuild, if_neg (by omega : ¬((v : Int) < 0)), if_neg hge, htn,
      if_pos hk]

/-- C4, witness: `v = 300` (bit length 9, so two long-form octets) hits the
long-form branch of the amended theorem: octets `82 01 2c`, value `300`,
with the minimal-count bounds `256 ≤ 300 < 256 ^ 2`. -/
theorem length_build_characterisation_witness :
    (127 : Nat) ≤ 300 ∧ (bit_length 300 + 7) / 8 ≤ 126 ∧
    lengthBuild ((300 : Nat) : Int) =
      .ok ⟨(((bit_length 300 + 7) / 8) ||| 0x80) ::
            natToBytesBE ((bit_length 300 + 7) / 8) 300, some 300⟩ ∧
    (300 : Nat) < 256 ^ ((bit_length 300 + 7) / 8) ∧
    256 ^ ((bit_length 300 + 7) / 8 - 1) ≤ 300 :=
  ⟨by decide, by decide,
   (length_build_characterisation 300).2.1 (by decide) (by decide)⟩

/-- Reading continuation octets that all have the high bit set exhausts the
stream without finding a terminator. -/
theorem tagReadLong_all_set : ∀ (rest acc : List Nat),
    (∀ b ∈ rest, b &&& 0x80 ≠ 0) →
    tagReadLong rest acc = (acc ++ rest, []) := by
  intro rest
  induction rest with
  | nil => intro acc _; simp [tagReadLong]
  | cons b rest ih =>
    intro acc hall
    have hb : b &&& 0x80 ≠ 0 := hall b (by simp)
    rw [tagReadLong, if_neg hb, ih (acc ++ [b]) (fun x hx => hall x (by simp [hx]))]
    simp

/-- Reading continuation octets stops at the first one with a clear high
bit, leaving the rest of the stream untouched. -/
theorem tagReadLong_split : ∀ (xs : List Nat) (t : Nat) (ys acc : List Nat),
    (∀ b ∈ xs, b &&& 0x80 ≠ 0) → t &&& 0x80 = 0 →
    tagReadLong (xs ++ t :: ys) acc = (acc ++ xs ++ [t], ys) := by
  intro xs
  induction xs with
  | nil => intro t ys acc _ ht; simp [tagReadLong, ht]
  | cons x xs ih =>
    intro t ys acc hxs ht
    have hx : x &&& 0x80 ≠ 0 := hxs x (by simp)
    have hih := ih t ys (acc ++ [x]) (fun b hb => hxs b (by simp [hb])) ht
    simp only [List.cons_append, tagReadLong]
    rw [if_neg hx]
    simp only [List.append_eq] at hih ⊢
    rw [hih]
    simp

/-- Every byte list either has all high bits set or splits at the first
byte with a clear high bit. -/
theorem continuation_split (rest : List Nat) :
    (∀ b ∈ rest, b &&& 0x80 ≠ 0) ∨
    ∃ xs t ys, rest = xs ++ t :: ys ∧ (∀ b ∈ xs, b &&& 0x80 ≠ 0) ∧
      t &&& 0x80 = 0 := by
  induction rest with
  | nil => exact Or.inl (by simp)
  | cons b rest ih =>
    by_cases hb : b &&& 0x80 = 0
    · exact Or.inr ⟨[], b, rest, by simp, by simp, hb⟩
    · rcases ih with hall | ⟨xs, t, ys, heq, hxs, ht⟩
      · refine Or.inl ?_
        intro c hc
        rcases List.mem_cons.mp hc with rfl | hc
        · exact hb
        · exact hall c hc
      · refine Or.inr ⟨b :: xs, t, ys, by simp [heq], ?_, ht⟩
        intro c hc
        rcases List.mem_cons.mp hc with rfl | hc
        · exact hb
        · exact hxs c hc

/-- The `Tag.__init__` check loop rejects a run of continuation octets that
never terminates (last byte still has its high bit set). -/
theorem tagCheckLoop_all_set : ∀ (cs : List Nat) (j T : Nat), cs ≠ [] →
    (∀ b ∈ cs, b &&& 0x80 ≠ 0) → T = j + cs.length →
    tagCheckLoop T j cs = .error .invalidEncoding := by
  intro cs
  induction cs with
  | nil => intro j T h; exact absurd rfl h
  | cons c cs ih =>
    intro j T _ hall hT
    have hc : c &&& 0x80 ≠ 0 := hall c (by simp)
    cases cs with
    | nil =>
      simp only [List.length_cons, List.length_nil] at hT
      simp only [tagCheckLoop]
      by_cases h1 : j = 1 ∧ c &&& 0x3f = 0
      · rw [if_pos h1]
      · rw [if_neg h1, if_pos (by omega : j = T - 1), if_pos hc]
    | cons c2 cs2 =>
      simp only [List.length_cons] at hT
      simp only [tagCheckLoop]
      by_cases h1 : j = 1 ∧ c &&& 0x3f = 0
      · rw [if_pos h1]
      · rw [if_neg h1, if_neg (by omega : ¬(j = T - 1)), if_neg hc]
        exact ih (j + 1) T (by simp) (fun b hb => hall b (by simp [hb]))
          (by simp only [List.length_cons]; omega)

/-- The `Tag.__init__` check loop accepts a tail (from index 2 onwards) of
high-bit-set octets closed by one terminating octet. -/
theorem tagCheckLoop_ok_tail : ∀ (xs : List Nat) (t : Nat) (j T : Nat),
    (∀ b ∈ xs, b &&& 0x80 ≠ 0) → t &&& 0x80 = 0 → 2 ≤ j →
    T = j + xs.length + 1 →
    tagCheckLoop T j (xs ++ [t]) = .ok () := by
  intro xs
  induction xs with
  | nil =>
    intro t j T _ ht hj hT
    simp only [List.length_nil] at hT
    simp only [List.nil_append, tagCheckLoop]
    rw [if_neg (by rintro ⟨h1, -⟩; omega), if_pos (by omega : j = T - 1),
      if_neg (not_not_intro ht)]
  | cons x xs ih =>
    intro t j T hxs ht hj hT
    simp only [List.length_cons] at hT
    simp only [List.cons_append, tagCheckLoop]
    rw [if_neg (by rintro ⟨h1, -⟩; omega), if_neg (by omega : ¬(j = T - 1)),
      if_neg (hxs x (by simp))]
    exact ih t (j + 1) T (fun b hb => hxs b (by simp [hb])) ht (by omega)
      (by omega)

/-- For every input, `Tag.decode` either satisfies `tagDecodeErrCond` and
raises `InvalidEncoding`, or does not and succeeds. -/
theorem tagDecode_dichotomy (data : List Nat) :
    (tagDecodeErrCond data ∧ tagDecode data = .error .invalidEncoding) ∨
    (¬ tagDecodeErrCond data ∧ ∃ r, tagDecode data = .ok r) := by
  cases data with
  | nil =>
    refine Or.inr ⟨?_, (none, []), rfl⟩
    rintro ⟨l, r, heq, -, -⟩
    cases heq
  | cons leading rest =>
    by_cases hlong : leading &&& 0x1f = 0x1f
    · rw [tagDecode, if_neg (not_not_intro hlong)]
      have hnlt : ¬(leading &&& 0x1f < 0x1f) := by rw [hlong]; omega
      rcases continuation_split rest with hall | ⟨xs, t, ys, hrest, hxs, ht⟩
      · cases rest with
        | nil =>
          refine Or.inl ⟨⟨leading, [], rfl, hlong, Or.inl rfl⟩, ?_⟩
          rw [show tagReadLong [] [leading] = ([leading], []) from rfl]
          simp only [tagInit]
          rw [if_neg hnlt]
          simp
        | cons r0 rs =>
          refine Or.inl ⟨⟨leading, r0 :: rs, rfl, hlong, Or.inr (Or.inr hall)⟩, ?_⟩
          rw [tagReadLong_all_set (r0 :: rs) [leading] hall]
          have hchk := tagCheckLoop_all_set (r0 :: rs) 1
            ((leading :: r0 :: rs).length) (by simp) hall
            (by simp only [List.length_cons]; omega)
          simp only [List.cons_append, List.nil_append]
          simp only [tagInit]
          rw [if_neg hnlt, if_neg (by simp), hchk]
      · subst hrest
        cases xs with
        | nil =>
          simp only [List.nil_append]
          have hsplit := tagReadLong_split [] t ys [leading] (by simp) ht
          simp only [List.nil_append, List.append_nil, List.cons_append] at hsplit
          by_cases h3f : t &&& 0x3f = 0
          · refine Or.inl ⟨⟨leading, t :: ys, rfl, hlong,
              Or.inr (Or.inl (by simpa [List.headI] using h3f))⟩, ?_⟩
            rw [hsplit]
            simp only [tagInit]
            rw [if_neg hnlt]
            have hchk : tagCheckLoop ([leading, t].length) 1 [t] =
                .error .invalidEncoding := by
              simp [tagCheckLoop, h3f]
            rw [if_neg (by simp), hchk]
          · refine Or.inr ⟨?_, ?_⟩
            · rintro ⟨l, r, heq, hl, hdisj⟩
              injection heq with h1 h2
              subst h1
              subst h2
              rcases hdisj with h | h | h
              · exact List.noConfusion h
              · exact h3f (by simpa [List.headI] using h)
              · exact h t (by simp) ht
            · refine ⟨(some ⟨[leading, t], leading &&& 0xC0, leading &&& 0x20, 0⟩, ys), ?_⟩
              rw [hsplit]
              simp only [tagInit]
              rw [if_neg hnlt]
              have hchk : tagCheckLoop ([leading, t].length) 1 [t] = .ok () := by
                simp [tagCheckLoop, h3f, ht]
              rw [if_neg (by simp), hchk]
              rw [if_neg (by simp)]
        | cons x xs' =>
          have hx : x &&& 0x80 ≠ 0 := hxs x (by simp)
          have hsplit := tagReadLong_split (x :: xs') t ys [leading] hxs ht
          simp only [List.cons_append, List.nil_append] at hsplit
          by_cases h3f : x &&& 0x3f = 0
          · refine Or.inl ⟨⟨leading, (x :: xs') ++ t :: ys, rfl, hlong,
              Or.inr (Or.inl (by simpa [List.headI] using h3f))⟩, ?_⟩
            simp only [List.cons_append]
            rw [hsplit]
            simp only [tagInit]
            rw [if_neg hnlt, if_neg (by simp)]
            have hchk : tagCheckLoop ((leading :: x :: (xs' ++ [t])).length) 1
                (x :: (xs' ++ [t])) = .error .invalidEncoding := by
              simp [tagCheckLoop, h3f]
            rw [hchk]
          · refine Or.inr ⟨?_, ?_⟩
            · rintro ⟨l, r, heq, hl, hdisj⟩
              injection heq with h1 h2
              subst h1
              subst h2
              rcases hdisj with h | h | h
              · exact List.noConfusion h
              · exact h3f (by simpa [List.headI] using h)
              · exact h t (by simp) ht
            · refine ⟨(some ⟨leading :: x :: (xs' ++ [t]), leading &&& 0xC0,
                leading &&& 0x20, 0⟩, ys), ?_⟩
              simp only [List.cons_append]
              rw [hsplit]
              simp only [tagInit]
              rw [if_neg hnlt, if_neg (by simp)]
              have hchk : tagCheckLoop ((leading :: x :: (xs' ++ [t])).length) 1
                  (x :: (xs' ++ [t])) = .ok () := by
                simp only [tagCheckLoop]
                rw [if_neg (by rintro ⟨-, h⟩; exact h3f h),
                  if_neg (by
                    simp only [List.length_cons, List.length_append,
                      List.length_nil]
                    omega),
                  if_neg hx]
                exact tagCheckLoop_ok_tail xs' t 2
                  ((leading :: x :: (xs' ++ [t])).length)
                  (fun b hb => hxs b (by simp [hb])) ht (by omega)
                  (by
                    simp only [List.length_cons, List.length_append,
                      List.length_nil]
                    omega)
              rw [hchk]
              rw [if_neg (by simp)]
    · refine Or.inr ⟨?_, ?_⟩
      · rintro ⟨l, r, heq, hl, -⟩
        injection heq with h1 h2
        subst h1
        exact hlong hl
      · have hlt : leading &&& 0x1f < 0x1f :=
          Nat.lt_of_le_of_ne Nat.and_le_right hlong
        refine ⟨(some ⟨[leading], leading &&& 0xC0, leading &&& 0x20,
          leading &&& 0x1f⟩, rest), ?_⟩
        rw [tagDecode, if_pos hlong]
        simp only [tagInit]
        rw [if_pos hlt]

/-- C5, counterexample. The claim states that `Tag.decode` of `1F 81 00`
raises `InvalidEncoding`; in fact these bytes are the well-formed minimal
long-form encoding of tag number 128 (first continuation byte `0x81` has
nonzero low bits), and decoding succeeds, returning a tag (whose number is
`0` only because of the missing accumulation, see C3). -/
theorem tag_decode_1f8100_succeeds :
    tagDecode [0x1f, 0x81, 0x00] =
      .ok (some ⟨[0x1f, 0x81, 0x00], 0x00, 0x00, 0⟩, []) := rfl

/-- C5, amended. `Tag.decode` raises exactly when the tag is long-form and
either the stream ends before a terminating continuation byte or the FIRST
continuation byte's low SIX bits are all zero (the source checks
`octet & 0x3f == 0`, not the low seven bits of the claim); every raise is an
`InvalidEncoding`; and `Tag.decode` of `1F 81 00` does NOT raise — it
returns a tag with the rest of the stream consumed. -/
theorem tag_decode_error_characterisation :
    (∀ data : List Nat,
      ((∃ e, tagDecode data = .error e) ↔ tagDecodeErrCond data) ∧
      (∀ e, tagDecode data = .error e → e = .invalidEncoding)) ∧
    (∃ r, tagDecode [0x1f, 0x81, 0x00] = .ok r) := by
  constructor
  · intro data
    rcases tagDecode_dichotomy data with ⟨hp, hdec⟩ | ⟨hp, r, hdec⟩
    · refine ⟨⟨fun _ => hp, fun _ => ⟨_, hdec⟩⟩, ?_⟩
      intro e he
      rw [hdec] at he
      cases he
      rfl
    · refine ⟨⟨?_, fun h => absurd h hp⟩, ?_⟩
      · rintro ⟨e, he⟩
        rw [hdec] at he
        cases he
      · intro e he
        rw [hdec] at he
        cases he
  · exact ⟨(some ⟨[0x1f, 0x81, 0x00], 0x00, 0x00, 0⟩, []), rfl⟩

/-- C5, witness for the amended theorem: at the concrete input `1F` (a
long-form leading byte with nothing after it) the characterisation yields an
error, and that error is `InvalidEncoding`. -/
theorem tag_decode_error_characterisation_witness :
    tagDecodeErrCond [0x1f] ∧ tagDecode [0x1f] = .error .invalidEncoding := by
  have hp : tagDecodeErrCond [0x1f] := ⟨0x1f, [], rfl, rfl, Or.inl rfl⟩
  refine ⟨hp, ?_⟩
  obtain ⟨e, he⟩ := (tag_decode_error_characterisation.1 [0x1f]).1.mpr hp
  have := (tag_decode_error_characterisation.1 [0x1f]).2 e he
  rw [this] at he
  exact he

/-- More byte-level facts by bounded enumeration, used for the IEEE-754
field reconstruction. -/
theorem nib_and_240 : ∀ v, v < 16 → v &&& 0xf0 = 0 := by decide

theorem small32_and_224 : ∀ v, v < 32 → v &&& 0xe0 = 0 := by decide

theorem small16_and_15 : ∀ v, v < 16 → v &&& 0x0f = v := by decide

theorem small16_shr4 : ∀ v, v < 16 → v >>> 4 = 0 := by decide

theorem lor128_and_127 : ∀ v, v < 128 → (128 ||| v) &&& 127 = v := by decide

theorem lor128_shr7 : ∀ v, v < 128 → (128 ||| v) >>> 7 = 1 := by decide

theorem small128_shr7 : ∀ v, v < 128 → v >>> 7 = 0 := by decide

theorem shl_mask_240 : ∀ q, q < 128 → ∀ r, r < 16 →
    (256 * q + 16 * r) &&& 0xf0 = 16 * r := by decide

theorem exp2048_shr4_and_128 : ∀ v, v < 2048 → (v >>> 4) &&& 0x80 = 0 := by
  intro v hv
  have h4 : v >>> 4 < 128 := by
    rw [Nat.shiftRight_eq_div_pow]
    omega
  exact byte_and_128 _ h4

/-- The leading byte of a big-endian representation is the top base-256
digit. -/
theorem natToBytesBE_headI : ∀ k v, (natToBytesBE (k + 1) v).headI = v / 256 ^ k % 256 := by
  intro k
  induction k with
  | zero => intro v; simp [natToBytesBE]
  | succ k ih =>
    intro v
    have hne := length_natToBytesBE (k + 1) (v / 256)
    rw [show natToBytesBE (k + 1 + 1) v =
      natToBytesBE (k + 1) (v / 256) ++ [v % 256] from rfl]
    cases hx : natToBytesBE (k + 1) (v / 256) with
    | nil => rw [hx] at hne; simp at hne
    | cons a l =>
      have := ih (v / 256)
      rw [hx] at this
      simp only [List.cons_append, List.headI] at this ⊢
      rw [this, Nat.div_div_eq_div_mul]
      congr 2
      rw [pow_succ]
      ring

theorem natToBytesBE_headI7 (v : Nat) :
    (natToBytesBE 7 v).headI = v / 256 ^ 6 % 256 := by
  simpa using natToBytesBE_headI 6 v

/-- C8, counterexample. The claim states that when the computed IEEE-754
exponent field exceeds the representable range, `decode_to_float` returns
signed infinity. At `(s, n, e, f, base) = (1, 1, 3000, 0, 2)` the exponent
field is `4023 > 2047`, and the function instead returns the exact Decimal
fallback `Decimal(2) ** e * Decimal(n) * (-1 if s else 1)` — not an
infinity, and with sign factor `-1` even though `s = 1` means positive,
because `s ∈ {1, -1}` is always truthy. The `return Decimal(...)` on line
316 precedes the `if __debug__:` diagnostics block, so the overflow result
is the same under default flags and under `python -O`. -/
theorem decode_to_float_overflow_returns_decimal :
    decode_to_float 1 1 3000 0 2 true = .ok (.decPow2 3000 1 (-1)) ∧
    decode_to_float 1 1 3000 0 2 false = .ok (.decPow2 3000 1 (-1)) :=
  ⟨rfl, rfl⟩

/-- C8, amended. For every input satisfying the function's entry
assertions, with `fe := dtf_fe n e f base` the computed IEEE-754 exponent
field and `fn := dtf_fn n` the aligned mantissa: when `fe > 2047`
(overflow) the function returns the exact Decimal fallback
`2 ^ e * n * (-1)` — not signed infinity — identically in both interpreter
modes, because the `return Decimal(...)` precedes the diagnostics block;
when `fe ≤ 0` and the mantissa right-shifted by the deficit underflows to
zero it raises (the `raise -0.0` slip, a `TypeError`) in both modes; in the
remaining cases the function assembles the 8 double bytes — exponent field
`0` (subnormal) when `fe ≤ 0`, exponent field `fe` (normal) when
`0 < fe ≤ 2047`, sign bit reflecting `s` — but under default interpreter
flags it then raises the builtin `NameError` on the undefined name `b` in
its `if __debug__:` diagnostics block (real.py lines 329–333), and only
under `python -O` does it return the assembled bytes. -/
theorem decode_to_float_trichotomy (s : Int) (n : Nat) (e : Int) (f base : Nat)
    (hs : s = 1 ∨ s = -1) (hb : base = 2 ∨ base = 8 ∨ base = 16)
    (hf : ¬(base = 2 ∧ 0 < f)) :
    (2047 < dtf_fe n e f base →
      decode_to_float s n e f base true = .ok (.decPow2 e n (-1)) ∧
      decode_to_float s n e f base false = .ok (.decPow2 e n (-1))) ∧
    (dtf_fe n e f base ≤ 0 →
      ((dtf_fn n ||| (1 <<< 52)) >>> (-(dtf_fe n e f base)).toNat = 0 →
        decode_to_float s n e f base true = .error .typeErrorRaiseFloat ∧
        decode_to_float s n e f base false = .error .typeErrorRaiseFloat) ∧
      ((dtf_fn n ||| (1 <<< 52)) >>> (-(dtf_fe n e f base)).toNat ≠ 0 →
        decode_to_float s n e f base true = .error .nameErrorUndefinedB ∧
        ∃ bs, decode_to_float s n e f base false = .ok (.dbl bs) ∧
          bs.length = 8 ∧ packedExpField bs = 0 ∧
          packedSignBit bs = (if s < 0 then 1 else 0))) ∧
    (0 < dtf_fe n e f base → dtf_fe n e f base ≤ 2047 →
      decode_to_float s n e f base true = .error .nameErrorUndefinedB ∧
      ∃ bs, decode_to_float s n e f base false = .ok (.dbl bs) ∧
        bs.length = 8 ∧ packedExpField bs = (dtf_fe n e f base).toNat ∧
        packedSignBit bs = (if s < 0 then 1 else 0)) := by
  have hpow : (1 <<< 52 : Nat) = 2 ^ 52 := by rw [Nat.shiftLeft_eq]; norm_num
  have hmask : ((1 <<< 52 : Nat) - 1) < 2 ^ 52 := by
    rw [hpow]
    have : (0 : Nat) < 2 ^ 52 := Nat.pos_pow_of_pos _ (by omega)
    omega
  have hfn : dtf_fn n < 2 ^ 53 := by
    rw [dtf_fn]
    by_cases hbl : 53 < bit_length n
    · rw [if_pos hbl]
      have h1 : n >>> (bit_length n - 53) < 2 ^ 53 := by
        rw [Nat.shiftRight_eq_div_pow]
        have hn := bit_length_lt_two_pow n
        have hsplitp : (2 : Nat) ^ bit_length n =
            2 ^ (bit_length n - 53) * 2 ^ 53 := by
          rw [← pow_add]
          congr 1
          omega
        rw [Nat.div_lt_iff_lt_mul (Nat.pos_pow_of_pos _ (by omega))]
        calc n < 2 ^ bit_length n := hn
          _ = 2 ^ (bit_length n - 53) * 2 ^ 53 := hsplitp
          _ = 2 ^ 53 * 2 ^ (bit_length n - 53) := by ring
      exact Nat.xor_lt_two_pow h1
        (lt_trans hmask (by norm_num))
    · rw [if_neg hbl]
      exact lt_trans (Nat.and_lt_two_pow _ hmask) (by norm_num)
  have ha1 : ¬((true : Bool) = true ∧ ¬(s = 1 ∨ s = -1)) := fun hx => hx.2 hs
  have ha2 : ¬((true : Bool) = true ∧ ¬(base = 2 ∨ base = 8 ∨ base = 16)) :=
    fun hx => hx.2 hb
  have ha3 : ¬((true : Bool) = true ∧ (base = 2 ∧ 0 < f)) := fun hx => hf hx.2
  have hfne : ¬((false : Bool) = true) := by decide
  have hd1 : ¬((false : Bool) = true ∧ ¬(s = 1 ∨ s = -1)) := fun hx => hfne hx.1
  have hd2 : ¬((false : Bool) = true ∧ ¬(base = 2 ∨ base = 8 ∨ base = 16)) :=
    fun hx => hfne hx.1
  have hd3 : ¬((false : Bool) = true ∧ (base = 2 ∧ 0 < f)) := fun hx => hfne hx.1
  refine ⟨?_, ?_, ?_⟩
  · intro h
    constructor
    · rw [decode_to_float, if_neg ha1, if_neg ha2, if_neg ha3,
        if_neg (by omega : ¬(dtf_fe n e f base ≤ 0)), if_pos h]
    · rw [decode_to_float, if_neg hd1, if_neg hd2, if_neg hd3,
        if_neg (by omega : ¬(dtf_fe n e f base ≤ 0)), if_pos h]
  · intro hfe
    constructor
    · intro h0
      constructor
      · rw [decode_to_float, if_neg ha1, if_neg ha2, if_neg ha3,
          if_pos hfe, if_pos h0]
      · rw [decode_to_float, if_neg hd1, if_neg hd2, if_neg hd3,
          if_pos hfe, if_pos h0]
    · intro h0
      have hfn1 : (dtf_fn n ||| (1 <<< 52)) >>> (-(dtf_fe n e f base)).toNat < 2 ^ 53 := by
        have hor : dtf_fn n ||| (1 <<< 52) < 2 ^ 53 :=
          Nat.or_lt_two_pow hfn (by rw [hpow]; norm_num)
        calc (dtf_fn n ||| (1 <<< 52)) >>> (-(dtf_fe n e f base)).toNat
            ≤ dtf_fn n ||| (1 <<< 52) := by
              rw [Nat.shiftRight_eq_div_pow]
              exact Nat.div_le_self _ _
          _ < 2 ^ 53 := hor
      have hfn2 : ((dtf_fn n ||| (1 <<< 52)) >>> (-(dtf_fe n e f base)).toNat) >>> 1
          < 2 ^ 52 := by
        rw [Nat.shiftRight_eq_div_pow]
        have h53 : (2 : Nat) ^ 53 = 2 ^ 52 * 2 := by ring
        rw [Nat.div_lt_iff_lt_mul (by omega), ← h53]
        simpa using hfn1
      have hhead : (natToBytesBE 7
          (((dtf_fn n ||| (1 <<< 52)) >>> (-(dtf_fe n e f base)).toNat) >>> 1)).headI < 16 := by
        rw [natToBytesBE_headI7]
        have h48 : (256 : Nat) ^ 6 = 2 ^ 48 := by norm_num
        have : ((dtf_fn n ||| (1 <<< 52)) >>> (-(dtf_fe n e f base)).toNat) >>> 1
            / 256 ^ 6 < 16 := by
          rw [h48, Nat.div_lt_iff_lt_mul (Nat.pos_pow_of_pos _ (by omega))]
          calc ((dtf_fn n ||| (1 <<< 52)) >>> (-(dtf_fe n e f base)).toNat) >>> 1
              < 2 ^ 52 := hfn2
            _ = 16 * 2 ^ 48 := by norm_num
        exact lt_of_le_of_lt (Nat.mod_le _ _) this
      have ha4 : ¬((true : Bool) = true ∧ (natToBytesBE 7
          (((dtf_fn n ||| (1 <<< 52)) >>> (-(dtf_fe n e f base)).toNat) >>> 1)).headI
          &&& 0xf0 ≠ 0) :=
        fun hx => hx.2 (nib_and_240 _ hhead)
      have hd4 : ¬((false : Bool) = true ∧ (natToBytesBE 7
          (((dtf_fn n ||| (1 <<< 52)) >>> (-(dtf_fe n e f base)).toNat) >>> 1)).headI
          &&& 0xf0 ≠ 0) :=
        fun hx => hfne hx.1
      constructor
      · rw [decode_to_float, if_neg ha1, if_neg ha2, if_neg ha3,
          if_pos hfe, if_neg h0, if_neg ha4, if_pos (rfl : (true : Bool) = true)]
      rw [decode_to_float, if_neg hd1, if_neg hd2, if_neg hd3,
        if_pos hfe, if_neg h0, if_neg hd4, if_neg hfne]
      refine ⟨_, rfl, ?_, ?_, ?_⟩
      · simp only [List.length_cons, List.length_tail, length_natToBytesBE]
      · rw [packedExpField]
        simp only [List.headI_cons, List.getD_cons_succ, List.getD_cons_zero]
        have hb2 : (0x00 &&& 0xf0) ||| ((natToBytesBE 7
            (((dtf_fn n ||| (1 <<< 52)) >>> (-(dtf_fe n e f base)).toNat) >>> 1)).headI
            &&& 0x0f) < 16 := by
          rw [show (0x00 &&& 0xf0 : Nat) = 0 from rfl, Nat.zero_or]
          have := Nat.and_le_right (n := (natToBytesBE 7
            (((dtf_fn n ||| (1 <<< 52)) >>> (-(dtf_fe n e f base)).toNat) >>> 1)).headI)
            (m := 0x0f)
          omega
        rw [small16_shr4 _ hb2]
        rcases hs with rfl | rfl
        · rw [if_neg (by omega : ¬((1 : Int) < 0))]
          decide
        · rw [if_pos (by omega : (-1 : Int) < 0)]
          decide
      · rw [packedSignBit]
        simp only [List.headI_cons]
        rcases hs with rfl | rfl
        · rw [if_neg (by omega : ¬((1 : Int) < 0)), if_neg (by omega : ¬((1 : Int) < 0))]
          decide
        · rw [if_pos (by omega : (-1 : Int) < 0), if_pos (by omega : (-1 : Int) < 0)]
          decide
  · intro hpos hle
    have hE : (dtf_fe n e f base).toNat < 2048 := by omega
    have hE4 : (dtf_fe n e f base).toNat >>> 4 < 128 := by
      rw [Nat.shiftRight_eq_div_pow]
      omega
    have hhead : (natToBytesBE 7 (dtf_fn n)).headI < 32 := by
      rw [natToBytesBE_headI7]
      have h48 : (256 : Nat) ^ 6 = 2 ^ 48 := by norm_num
      have : dtf_fn n / 256 ^ 6 < 32 := by
        rw [h48, Nat.div_lt_iff_lt_mul (Nat.pos_pow_of_pos _ (by omega))]
        calc dtf_fn n < 2 ^ 53 := hfn
          _ = 32 * 2 ^ 48 := by norm_num
      exact lt_of_le_of_lt (Nat.mod_le _ _) this
    have ha5 : ¬((true : Bool) = true ∧
        ((dtf_fe n e f base).toNat >>> 4) &&& 0x80 ≠ 0) :=
      fun hx => hx.2 (exp2048_shr4_and_128 _ hE)
    have ha6 : ¬((true : Bool) = true ∧
        (natToBytesBE 7 (dtf_fn n)).headI &&& 0xe0 ≠ 0) :=
      fun hx => hx.2 (small32_and_224 _ hhead)
    have hd5 : ¬((false : Bool) = true ∧
        ((dtf_fe n e f base).toNat >>> 4) &&& 0x80 ≠ 0) := fun hx => hfne hx.1
    have hd6 : ¬((false : Bool) = true ∧
        (natToBytesBE 7 (dtf_fn n)).headI &&& 0xe0 ≠ 0) := fun hx => hfne hx.1
    constructor
    · rw [decode_to_float, if_neg ha1, if_neg ha2, if_neg ha3,
        if_neg (by omega : ¬(dtf_fe n e f base ≤ 0)),
        if_neg (by omega : ¬(2047 < dtf_fe n e f base)),
        if_neg ha5, if_neg ha6, if_pos (rfl : (true : Bool) = true)]
    rw [decode_to_float, if_neg hd1, if_neg hd2, if_neg hd3,
      if_neg (by omega : ¬(dtf_fe n e f base ≤ 0)),
      if_neg (by omega : ¬(2047 < dtf_fe n e f base)),
      if_neg hd5, if_neg hd6, if_neg hfne]
    refine ⟨_, rfl, ?_, ?_, ?_⟩
    · simp only [List.length_cons, List.length_tail, length_natToBytesBE]
    · rw [packedExpField]
      simp only [List.headI_cons, List.getD_cons_succ, List.getD_cons_zero]
      have hh15 : (natToBytesBE 7 (dtf_fn n)).headI &&& 0x0f < 16 := by
        have := Nat.and_le_right (n := (natToBytesBE 7 (dtf_fn n)).headI) (m := 0x0f)
        omega
      have hsplitE : (dtf_fe n e f base).toNat <<< 4 =
          256 * ((dtf_fe n e f base).toNat / 16) +
          16 * ((dtf_fe n e f base).toNat % 16) := by
        rw [Nat.shiftLeft_eq]
        omega
      have hmask240 : ((dtf_fe n e f base).toNat <<< 4) &&& 0xf0 =
          16 * ((dtf_fe n e f base).toNat % 16) := by
        rw [hsplitE]
        exact shl_mask_240 _ (by omega) _ (by omega)
      have hor : 16 * ((dtf_fe n e f base).toNat % 16) |||
          ((natToBytesBE 7 (dtf_fn n)).headI &&& 0x0f) =
          16 * ((dtf_fe n e f base).toNat % 16) +
          ((natToBytesBE 7 (dtf_fn n)).headI &&& 0x0f) := by
        have h := Nat.mul_add_lt_is_or
          (show (natToBytesBE 7 (dtf_fn n)).headI &&& 0x0f < 2 ^ 4 by omega)
          ((dtf_fe n e f base).toNat % 16)
        norm_num at h
        exact h.symm
      rw [hmask240, hor]
      have hshr : (16 * ((dtf_fe n e f base).toNat % 16) +
          ((natToBytesBE 7 (dtf_fn n)).headI &&& 0x0f)) >>> 4 =
          (dtf_fe n e f base).toNat % 16 := by
        rw [Nat.shiftRight_eq_div_pow]
        omega
      rw [hshr, small16_and_15 _ (by omega)]
      have hsh44 : ((dtf_fe n e f base).toNat >>> 4) <<< 4 =
          16 * ((dtf_fe n e f base).toNat / 16) := by
        rw [Nat.shiftRight_eq_div_pow, Nat.shiftLeft_eq]
        norm_num
        ring
      have hrecomp := Nat.mul_add_lt_is_or
        (show (dtf_fe n e f base).toNat % 16 < 2 ^ 4 by omega)
        ((dtf_fe n e f base).toNat / 16)
      norm_num at hrecomp
      rcases hs with rfl | rfl
      · rw [if_neg (by omega : ¬((1 : Int) < 0)), Nat.zero_or,
          byte_and_127 _ hE4, hsh44, ← hrecomp]
        omega
      · rw [if_pos (by omega : (-1 : Int) < 0),
          lor128_and_127 _ hE4, hsh44, ← hrecomp]
        omega
    · rw [packedSignBit]
      simp only [List.headI_cons]
      rcases hs with rfl | rfl
      · rw [if_neg (by omega : ¬((1 : Int) < 0)), if_neg (by omega : ¬((1 : Int) < 0)),
          Nat.zero_or, small128_shr7 _ hE4]
      · rw [if_pos (by omega : (-1 : Int) < 0), if_pos (by omega : (-1 : Int) < 0),
          lor128_shr7 _ hE4]

/-- C8, witness for the amended theorem: `(s, n, e, f, base) = (1, 1, 0, 0, 2)`
satisfies the entry assertions and lands in the normal-number branch with
exponent field `1023` (the double `1.0`): under default flags the
diagnostics block raises `NameError`, under `python -O` the bytes are
returned. -/
theorem decode_to_float_trichotomy_witness :
    ((1 : Int) = 1 ∨ (1 : Int) = -1) ∧
    ((2 : Nat) = 2 ∨ (2 : Nat) = 8 ∨ (2 : Nat) = 16) ∧
    ¬((2 : Nat) = 2 ∧ 0 < (0 : Nat)) ∧
    (0 : Int) < dtf_fe 1 0 0 2 ∧ dtf_fe 1 0 0 2 ≤ 2047 ∧
    decode_to_float 1 1 0 0 2 true = .error .nameErrorUndefinedB ∧
    ∃ bs, decode_to_float 1 1 0 0 2 false = .ok (.dbl bs) ∧ bs.length = 8 ∧
      packedExpField bs = (dtf_fe 1 0 0 2).toNat ∧
      packedSignBit bs = (if (1 : Int) < 0 then 1 else 0) :=
  ⟨Or.inl rfl, Or.inl rfl, by decide, by decide, by decide,
   ((decode_to_float_trichotomy 1 1 0 0 2 (Or.inl rfl) (Or.inl rfl)
     (by decide)).2.2 (by decide) (by decide)).1,
   ((decode_to_float_trichotomy 1 1 0 0 2 (Or.inl rfl) (Or.inl rfl)
     (by decide)).2.2 (by decide) (by decide)).2⟩

/-- C10, counterexample. The claim states that `end_constructed` on an
encoder whose stack is empty fails with a typed ASN.1 encoding error; the
code has no guard — `self._stack.pop()` raises the builtin `IndexError`
(`pop from empty list`), which is not part of the library's
`ASN1Exception` hierarchy. -/
theorem end_constructed_empty_index_error :
    end_constructed ⟨[], [0x04, 0x00]⟩ = .error .indexError := rfl

/-- C10, amended. Calling `end_constructed` on ANY encoder state with an
empty stack of open constructed elements fails by raising the builtin
`IndexError` from popping the empty list, not a typed ASN.1 encoding
error. -/
theorem end_constructed_empty_stack (st : EncState) (h : st.stack = []) :
    end_constructed st = .error .indexError := by
  obtain ⟨stack, stream⟩ := st
  simp only at h
  subst h
  rfl

/-- C10, witness: the fresh encoder state (empty stack, empty stream)
satisfies the hypothesis and yields the `IndexError`. -/
theorem end_constructed_empty_stack_witness :
    (EncState.mk [] []).stack = [] ∧
    end_constructed (EncState.mk [] []) = .error .indexError :=
  ⟨rfl, end_constructed_empty_stack (EncState.mk [] []) rfl⟩

end Asn1
